import Mathlib

/-!
Verification development for the RustyPHP interpreter core.

This file gives a shallow embedding, in Lean, of the parts of the
interpreter that the verified properties concern:

* the value model (`crates/php-types/src/value.rs`): `PhpValue`,
  `PhpArray`, truthiness and the numeric/string coercions;
* the arithmetic / comparison functions
  (`crates/php-types/src/conversion.rs`);
* the tree-walking runtime engine
  (`crates/php-runtime/src/engine.rs`): statement execution,
  expression evaluation, control-flow signals, function calls,
  static-variable storage and output buffering;
* the lexer fragments for heredoc/nowdoc literals
  (`crates/php-lexer/src/lexer/literals.rs`) and number literals
  (`crates/php-lexer/src/stream.rs`).

Modelling conventions:

* Rust `i64` is modelled as `Int`; where the source can overflow
  (`key + 1` on array indices, `i + 1` on increment) the result is
  reduced with `wrap64`, the two's-complement wrap-around that release
  builds (`overflow-checks = off`) perform.
* Rust `f64` is modelled by `F64`: an exact fraction together with the
  two infinities and NaN.  IEEE rounding, signed zero and
  overflow/underflow of decimal parsing are idealised away (the
  verified statements do not depend on them); IEEE equality and NaN
  propagation, which several properties do depend on, are modelled
  faithfully.
* `std::collections::HashMap` stores no insertion-order information and
  its iteration order is documented as arbitrary.  For the string-keyed
  engine maps (variables, constants, functions) only lookup and length
  are ever observed, and they are modelled as association lists.  For
  `PhpArray.data`, whose iteration order IS observed (`foreach`,
  `implode`, `json_encode`), the model keeps the entries in a canonical
  order determined only by the set of keys (sorted by `PhpArrayKey.lt`),
  never by insertion history — exactly the information a hash table
  retains.  `hashMapInsert_comm` below proves the model is insensitive
  to insertion order, as a hash map is.
* The interpreter loops forever on non-terminating PHP programs; the
  embedding threads a fuel parameter and reports `outOfFuel` when it is
  exhausted.  All verified executions use sufficient fuel.
-/

/-- Two's-complement wrap-around into the `i64` range, the behaviour of
Rust integer arithmetic with `overflow-checks = off` (release builds). -/
def wrap64 (i : Int) : Int :=
  (i + 2 ^ 63) % 2 ^ 64 - 2 ^ 63

/-- An exact, not necessarily reduced fraction: the numeric payload of
finite floats.  The denominator is a positive natural by construction
of every operation below; two fractions denote the same value when they
cross-multiply equally, which is what `Frac.beq` tests. -/
structure Frac where
  num : Int
  den : Nat
deriving DecidableEq, Repr

namespace Frac

/-- The value `0`. -/
def zero : Frac := ⟨0, 1⟩

/-- The value `1`. -/
def one : Frac := ⟨1, 1⟩

/-- An integer as a fraction. -/
def ofInt (i : Int) : Frac := ⟨i, 1⟩

/-- Value equality by cross-multiplication. -/
def beq (a b : Frac) : Bool := a.num * (b.den : Int) == b.num * (a.den : Int)

/-- Is the value zero? -/
def isZero (a : Frac) : Bool := a.num == 0

/-- Is the value negative? -/
def isNeg (a : Frac) : Bool := decide (a.num < 0)

/-- Strict order by cross-multiplication (denominators are positive). -/
def lt (a b : Frac) : Bool :=
  decide (a.num * (b.den : Int) < b.num * (a.den : Int))

/-- Exact addition. -/
def add (a b : Frac) : Frac :=
  ⟨a.num * b.den + b.num * a.den, a.den * b.den⟩

/-- Exact subtraction. -/
def sub (a b : Frac) : Frac :=
  ⟨a.num * b.den - b.num * a.den, a.den * b.den⟩

/-- Exact multiplication. -/
def mul (a b : Frac) : Frac := ⟨a.num * b.num, a.den * b.den⟩

/-- Exact division by a nonzero fraction, keeping the denominator
positive. -/
def div (a b : Frac) : Frac :=
  if b.num < 0 then ⟨-(a.num * b.den), a.den * b.num.natAbs⟩
  else ⟨a.num * b.den, a.den * b.num.natAbs⟩

end Frac

/-- Model of Rust `f64`: an exact fraction, an infinity, or NaN.
Signed zero is collapsed onto the zero fraction (IEEE `==` identifies
the two zeroes, and no verified statement observes the sign of zero). -/
inductive F64 where
  | finite (q : Frac)
  | inf (neg : Bool)
  | nan
deriving DecidableEq, Repr

namespace F64

/-- The float `0.0`. -/
def zero : F64 := .finite Frac.zero

/-- The float `1.0`. -/
def one : F64 := .finite Frac.one

/-- IEEE equality `==`: NaN is equal to nothing, including itself. -/
def beq : F64 → F64 → Bool
  | .finite a, .finite b => Frac.beq a b
  | .inf a, .inf b => a == b
  | _, _ => false

/-- Rust `f64::is_nan`. -/
def isNaN : F64 → Bool
  | .nan => true
  | _ => false

/-- IEEE addition (exact on finite operands in this model). -/
def add : F64 → F64 → F64
  | .finite a, .finite b => .finite (a.add b)
  | .nan, _ => .nan
  | _, .nan => .nan
  | .inf s, .inf t => if s = t then .inf s else .nan
  | .inf s, .finite _ => .inf s
  | .finite _, .inf t => .inf t

/-- IEEE subtraction (exact on finite operands in this model). -/
def sub : F64 → F64 → F64
  | .finite a, .finite b => .finite (a.sub b)
  | .nan, _ => .nan
  | _, .nan => .nan
  | .inf s, .inf t => if s = t then .nan else .inf s
  | .inf s, .finite _ => .inf s
  | .finite _, .inf t => .inf (!t)

/-- IEEE multiplication (exact on finite operands in this model). -/
def mul : F64 → F64 → F64
  | .finite a, .finite b => .finite (a.mul b)
  | .nan, _ => .nan
  | _, .nan => .nan
  | .inf s, .inf t => .inf (xor s t)
  | .inf s, .finite b => if b.isZero then .nan else .inf (xor s b.isNeg)
  | .finite a, .inf t => if a.isZero then .nan else .inf (xor a.isNeg t)

/-- IEEE division (exact on finite operands in this model). -/
def div : F64 → F64 → F64
  | .finite a, .finite b =>
      if b.isZero then (if a.isZero then .nan else .inf a.isNeg)
      else .finite (a.div b)
  | .nan, _ => .nan
  | _, .nan => .nan
  | .inf _, .inf _ => .nan
  | .inf s, .finite b => .inf (xor s b.isNeg)
  | .finite _, .inf _ => .finite Frac.zero

/-- IEEE strict order `<`: false whenever either operand is NaN. -/
def lt : F64 → F64 → Bool
  | .finite a, .finite b => Frac.lt a b
  | .nan, _ => false
  | _, .nan => false
  | .inf s, .inf t => s && !t
  | .inf s, .finite _ => s
  | .finite _, .inf t => !t

/-- Rust cast `i64 as f64`.  Exact in this model (the rounding that the
real cast performs above `2^53` is not observed by any verified
statement). -/
def ofInt (i : Int) : F64 := .finite (Frac.ofInt i)

/-- Rust cast `u64 as f64`, same idealisation as `ofInt`. -/
def ofNat (n : Nat) : F64 := .finite (Frac.ofInt n)

/-- Rust cast `f64 as i64`: truncation toward zero, saturating at the
`i64` bounds, NaN mapped to `0`. -/
def toI64 : F64 → Int
  | .finite q =>
      let t : Int := Int.tdiv q.num q.den
      if t < -(2 ^ 63) then -(2 ^ 63)
      else if t > 2 ^ 63 - 1 then 2 ^ 63 - 1
      else t
  | .nan => 0
  | .inf s => if s then -(2 ^ 63) else 2 ^ 63 - 1

end F64

/-- One decimal digit to its value. -/
def digitVal (c : Char) : Nat := c.toNat - '0'.toNat

/-- Value of a digit run, most significant first. -/
def digitsToNat (l : List Char) : Nat :=
  l.foldl (fun acc c => acc * 10 + digitVal c) 0

/-- Split a leading `+`/`-` sign off a character list; `true` means
negative. -/
def splitSign : List Char → Bool × List Char
  | '+' :: r => (false, r)
  | '-' :: r => (true, r)
  | r => (false, r)

/-- Leading run of ASCII digits and the remainder. -/
def takeDigits (l : List Char) : List Char × List Char :=
  (l.takeWhile Char.isDigit, l.dropWhile Char.isDigit)

/-- Assemble a parsed decimal into an exact fraction float. -/
def mkDecimal (neg : Bool) (intD fracD : List Char) (exp : Int) : F64 :=
  let base : Int := digitsToNat (intD ++ fracD)
  let e : Int := exp - fracD.length
  let f : Frac :=
    if e ≥ 0 then ⟨base * 10 ^ e.toNat, 1⟩ else ⟨base, 10 ^ (-e).toNat⟩
  .finite (if neg then ⟨-f.num, f.den⟩ else f)

/-- Optional exponent suffix of a float literal (`e`/`E`, sign, digits),
which must consume the entire remainder. -/
def parseExpSuffix (neg : Bool) (intD fracD : List Char) :
    List Char → Option F64
  | [] => some (mkDecimal neg intD fracD 0)
  | c :: rest =>
      if c = 'e' ∨ c = 'E' then
        let (eneg, rest1) := splitSign rest
        let (eD, rest2) := takeDigits rest1
        if eD.isEmpty ∨ ¬rest2.isEmpty then none
        else
          some (mkDecimal neg intD fracD
            (if eneg then -(digitsToNat eD : Int) else (digitsToNat eD : Int)))
      else none

/-- Model of Rust `str::parse::<f64>` (the `FromStr` grammar: optional
sign; `inf`/`infinity`/`nan` case-insensitively; or a decimal mantissa
with at least one digit, optional fraction and optional exponent).  The
numeric value is kept exact; rounding to binary and overflow/underflow
of extreme literals are idealised away. -/
def parseF64 (s : String) : Option F64 :=
  let (neg, cs) := splitSign s.data
  let lower := cs.map Char.toLower
  if lower = "inf".data ∨ lower = "infinity".data then some (.inf neg)
  else if lower = "nan".data then some .nan
  else
    let (intD, cs1) := takeDigits cs
    match cs1 with
    | '.' :: cs2 =>
        let (fracD, cs3) := takeDigits cs2
        if intD.isEmpty ∧ fracD.isEmpty then none
        else parseExpSuffix neg intD fracD cs3
    | _ =>
        if intD.isEmpty then none
        else parseExpSuffix neg intD [] cs1

/-- Model of Rust `str::parse::<i64>`: optional sign, one or more
digits, nothing else, and the value must fit in `i64`. -/
def parseI64 (s : String) : Option Int :=
  let (neg, cs) := splitSign s.data
  let (d, rest) := takeDigits cs
  if d.isEmpty ∨ ¬rest.isEmpty then none
  else
    let v : Int := if neg then -(digitsToNat d : Int) else (digitsToNat d : Int)
    if v < -(2 ^ 63) ∨ v > 2 ^ 63 - 1 then none else some v

/-- Lexicographic comparison of character lists by code point, the
order Rust's `Ord` on `String` induces (UTF-8 byte order coincides with
code-point order). -/
def charListLt : List Char → List Char → Bool
  | _, [] => false
  | [], _ :: _ => true
  | a :: as, b :: bs =>
      if a = b then charListLt as bs else decide (a.toNat < b.toNat)

/-- Rust `String` order `<`. -/
def strLt (a b : String) : Bool := charListLt a.data b.data

/-- PHP array key (`PhpArrayKey` in `value.rs`): integer or string. -/
inductive PhpArrayKey where
  | int (i : Int)
  | str (s : String)
deriving DecidableEq, Repr

namespace PhpArrayKey

/-- A fixed strict total order on keys (integers before strings), used
by the hash-map model below to lay entries out canonically. -/
def lt : PhpArrayKey → PhpArrayKey → Bool
  | .int a, .int b => decide (a < b)
  | .int _, .str _ => true
  | .str _, .int _ => false
  | .str a, .str b => strLt a b

end PhpArrayKey

/-- Insertion into the model of `std::collections::HashMap`.  A hash
table remembers the key-to-value association and nothing about the
order in which keys arrived; its iteration order is documented as
arbitrary.  The model therefore keeps entries sorted by the fixed key
order `PhpArrayKey.lt` — an order that is a function of the stored keys
alone, never of insertion history (see `hashMapInsert_comm`).
Inserting an existing key replaces its value in place, as
`HashMap::insert` does. -/
def hashMapInsert {α : Type} (k : PhpArrayKey) (v : α) :
    List (PhpArrayKey × α) → List (PhpArrayKey × α)
  | [] => [(k, v)]
  | (k', v') :: rest =>
      if k = k' then (k, v) :: rest
      else if PhpArrayKey.lt k k' then (k, v) :: (k', v') :: rest
      else (k', v') :: hashMapInsert k v rest

/-- Lookup in the hash-map model (`HashMap::get`). -/
def hashMapGet {α : Type} (k : PhpArrayKey) :
    List (PhpArrayKey × α) → Option α
  | [] => none
  | (k', v') :: rest => if k = k' then some v' else hashMapGet k rest

/-- PHP runtime value (`PhpValue` in `value.rs`).  The `array`
constructor inlines the two fields of the Rust `PhpArray` struct (its
`HashMap` entries, in the canonical model order, and `next_index`); the
`object` constructor inlines `PhpObject`. -/
inductive PhpValue where
  | null
  | bool (b : Bool)
  | int (i : Int)
  | float (f : F64)
  | string (s : String)
  | array (data : List (PhpArrayKey × PhpValue)) (nextIndex : Int)
  | object (className : String) (properties : List (String × PhpValue))
  | resource (r : Nat)

/-- The `PhpArray` struct of `value.rs`: the hash-map entries (in the
canonical model order) plus the `next_index` auto-append counter. -/
structure PhpArray where
  data : List (PhpArrayKey × PhpValue)
  nextIndex : Int

namespace PhpArray

/-- Constructor `PhpArray::new`. -/
def new : PhpArray := ⟨[], 0⟩

/-- Method `PhpArray::is_empty`. -/
def isEmpty (a : PhpArray) : Bool := a.data.isEmpty

/-- Method `PhpArray::len`. -/
def len (a : PhpArray) : Nat := a.data.length

/-- Method `PhpArray::insert_int`: store under an integer key, then
bump `next_index` to `key + 1` when `key >= next_index` (`i64`
arithmetic, hence `wrap64`). -/
def insertInt (a : PhpArray) (key : Int) (v : PhpValue) : PhpArray :=
  { data := hashMapInsert (.int key) v a.data
    nextIndex := if key ≥ a.nextIndex then wrap64 (key + 1) else a.nextIndex }

/-- Method `PhpArray::insert_string`: store under a string key;
`next_index` is untouched. -/
def insertString (a : PhpArray) (key : String) (v : PhpValue) : PhpArray :=
  { a with data := hashMapInsert (.str key) v a.data }

/-- Method `PhpArray::push`: auto-append at `next_index`. -/
def push (a : PhpArray) (v : PhpValue) : PhpArray :=
  a.insertInt a.nextIndex v

/-- Method `PhpArray::get_int`. -/
def getInt (a : PhpArray) (key : Int) : Option PhpValue :=
  hashMapGet (.int key) a.data

/-- Method `PhpArray::get_string`. -/
def getString (a : PhpArray) (key : String) : Option PhpValue :=
  hashMapGet (.str key) a.data

end PhpArray

/-- View a `PhpValue.array` payload as the `PhpArray` struct. -/
def PhpValue.asArray : PhpValue → Option PhpArray
  | .array d n => some ⟨d, n⟩
  | _ => none

/-- Wrap a `PhpArray` struct back into a value. -/
def PhpValue.ofArray (a : PhpArray) : PhpValue := .array a.data a.nextIndex

namespace PhpValue

/-- Method `PhpValue::is_null`. -/
def isNull : PhpValue → Bool
  | .null => true
  | _ => false

/-- Method `PhpValue::is_truthy` (`value.rs` lines 92–103): PHP
truthiness. -/
def isTruthy : PhpValue → Bool
  | .null => false
  | .bool b => b
  | .int i => i != 0
  | .float f => !(F64.beq f F64.zero) && !f.isNaN
  | .string s => !s.isEmpty && s != "0"
  | .array data _ => !data.isEmpty
  | .object _ _ => true
  | .resource _ => true

/-- Method `PhpValue::to_int` (`value.rs`). -/
def toInt : PhpValue → Int
  | .null => 0
  | .bool b => if b then 1 else 0
  | .int i => i
  | .float f => f.toI64
  | .string s => (parseI64 s).getD 0
  | .array data _ => if data.isEmpty then 0 else 1
  | .object _ _ => 1
  | .resource r => wrap64 r

/-- Method `PhpValue::to_float` (`value.rs`). -/
def toFloat : PhpValue → F64
  | .null => .finite Frac.zero
  | .bool b => if b then .finite Frac.one else .finite Frac.zero
  | .int i => F64.ofInt i
  | .float f => f
  | .string s => (parseF64 s).getD (.finite Frac.zero)
  | .array data _ => if data.isEmpty then .finite Frac.zero else .finite Frac.one
  | .object _ _ => .finite Frac.one
  | .resource r => F64.ofNat r

/-- Rendering of a float by Rust's `Display`.  Integral values print
with no fractional part (`1.0` → `"1"`), exactly as Rust does; the
shortest-round-trip decimal rendering of non-integral values is outside
the modelled fragment and is not relied on by any verified statement. -/
def floatToString (f : F64) : String :=
  match f with
  | .nan => "NaN"
  | .inf neg => if neg then "-inf" else "inf"
  | .finite q =>
      if q.num % (q.den : Int) == 0 then toString (Int.tdiv q.num q.den)
      else toString q.num ++ "/" ++ toString q.den

/-- Method `PhpValue::to_string` (`value.rs`). -/
def toStr : PhpValue → String
  | .null => ""
  | .bool b => if b then "1" else ""
  | .int i => toString i
  | .float f => floatToString f
  | .string s => s
  | .array _ _ => "Array"
  | .object _ _ => "Object"
  | .resource r => "Resource id #" ++ toString r

end PhpValue

/-- Function `php_add` (`conversion.rs`): `Int`/`Int` stays integer
(`i64` wrap-around), any float promotes, everything else coerces
through `to_float`. -/
def phpAdd : PhpValue → PhpValue → PhpValue
  | .int a, .int b => .int (wrap64 (a + b))
  | .float a, .float b => .float (a.add b)
  | .int a, .float b => .float ((F64.ofInt a).add b)
  | .float a, .int b => .float (a.add (F64.ofInt b))
  | l, r => .float ((l.toFloat).add (r.toFloat))

/-- Function `php_subtract` (`conversion.rs`). -/
def phpSubtract : PhpValue → PhpValue → PhpValue
  | .int a, .int b => .int (wrap64 (a - b))
  | .float a, .float b => .float (a.sub b)
  | .int a, .float b => .float ((F64.ofInt a).sub b)
  | .float a, .int b => .float (a.sub (F64.ofInt b))
  | l, r => .float ((l.toFloat).sub (r.toFloat))

/-- Function `php_multiply` (`conversion.rs`). -/
def phpMultiply : PhpValue → PhpValue → PhpValue
  | .int a, .int b => .int (wrap64 (a * b))
  | .float a, .float b => .float (a.mul b)
  | .int a, .float b => .float ((F64.ofInt a).mul b)
  | .float a, .int b => .float (a.mul (F64.ofInt b))
  | l, r => .float ((l.toFloat).mul (r.toFloat))

/-- Function `php_divide` (`conversion.rs` lines 90–98): error when the
divisor coerces to `0.0` under IEEE `==`, otherwise always a float. -/
def phpDivide (left right : PhpValue) : Except String PhpValue :=
  let b := right.toFloat
  if F64.beq b F64.zero then .error "Division by zero"
  else .ok (.float ((left.toFloat).div b))

/-- Function `php_concatenate` (`conversion.rs`). -/
def phpConcatenate (left right : PhpValue) : PhpValue :=
  .string (left.toStr ++ right.toStr)

/-- Function `php_equals` (`conversion.rs`): same-type direct
comparison, numeric cross-comparison, otherwise string-form equality. -/
def phpEquals : PhpValue → PhpValue → Bool
  | .null, .null => true
  | .bool a, .bool b => a == b
  | .int a, .int b => a == b
  | .float a, .float b => F64.beq a b
  | .string a, .string b => a == b
  | .int a, .float b => F64.beq (F64.ofInt a) b
  | .float a, .int b => F64.beq a (F64.ofInt b)
  | l, r => l.toStr == r.toStr

/-- Function `php_less_than` (`conversion.rs`). -/
def phpLessThan : PhpValue → PhpValue → Bool
  | .int a, .int b => decide (a < b)
  | .float a, .float b => F64.lt a b
  | .int a, .float b => F64.lt (F64.ofInt a) b
  | .float a, .int b => F64.lt a (F64.ofInt b)
  | .string a, .string b => strLt a b
  | l, r => F64.lt l.toFloat r.toFloat

/-- Function `php_less_than_or_equal` (`conversion.rs`). -/
def phpLessThanOrEqual (l r : PhpValue) : Bool :=
  phpLessThan l r || phpEquals l r

/-- Function `php_greater_than` (`conversion.rs`). -/
def phpGreaterThan (l r : PhpValue) : Bool :=
  !phpLessThanOrEqual l r

/-- Function `php_greater_than_or_equal` (`conversion.rs`). -/
def phpGreaterThanOrEqual (l r : PhpValue) : Bool :=
  !phpLessThan l r

/-- Binary operators (`ast/operator.rs`). -/
inductive BinaryOp where
  | add | subtract | multiply | divide | modulo | concatenate
  | equal | notEqual | lessThan | lessThanOrEqual | greaterThan
  | greaterThanOrEqual | logicalAnd | logicalOr | spaceship
  | bitwiseAnd | bitwiseOr
deriving DecidableEq, Repr

/-- Unary operators (`ast/operator.rs`); `notOp` is the source's `Not`. -/
inductive UnaryOp where
  | minus | notOp | preIncrement | postIncrement | preDecrement | postDecrement
deriving DecidableEq, Repr

/-- Expression AST (`ast/expr.rs`).  `var` is the source's `Variable`;
an `arrayLit` element is the source's `ArrayElement {key, value}` pair;
`stringLit`/`boolLit`/`nullLit` are the literal constructors. -/
inductive Expr where
  | var (name : String)
  | constant (name : String)
  | number (n : F64)
  | stringLit (s : String)
  | boolLit (b : Bool)
  | nullLit
  | binary (left : Expr) (op : BinaryOp) (right : Expr)
  | yieldExpr (value : Expr)
  | methodCall (target : Expr) (method : String) (args : List Expr)
  | unary (op : UnaryOp) (operand : Expr)
  | functionCall (name : String) (args : List Expr)
  | arrayLit (elements : List (Option Expr × Expr))
  | arrayAccess (array : Expr) (index : Expr)
  | nullCoalesce (left : Expr) (right : Expr)
  | arrowFunction (params : List String) (body : Expr)
  | dynamicCall (target : Expr) (args : List Expr)
  | ternary (condition : Expr) (thenExpr : Option Expr) (elseExpr : Expr)
  | matchExpr (subject : Expr) (arms : List (List Expr × Expr)) (defaultArm : Option Expr)

/-- Destructuring target (`ast`'s `DestructTarget`): a plain variable or
a string-keyed variable. -/
inductive DestructTarget where
  | dvar (varName : String)
  | dkeyVar (key : String) (varName : String)

/-- Statement AST (the `Stmt` enum consumed by `engine.rs`; a switch
case is the source's `SwitchCase {value, statements}` pair). -/
inductive Stmt where
  | expression (e : Expr)
  | echo (e : Expr)
  | print (e : Expr)
  | assignment (varName : String) (value : Expr)
  | nullCoalesceAssign (varName : String) (value : Expr)
  | constantDefinition (name : String) (value : Expr)
  | block (stmts : List Stmt)
  | ifStmt (condition : Expr) (thenStmt : Stmt) (elseStmt : Option Stmt)
  | whileStmt (condition : Expr) (body : Stmt)
  | forStmt (init : Option Stmt) (condition : Option Expr)
      (increment : Option Expr) (body : Stmt)
  | foreach (array : Expr) (valueVar : String) (keyVar : Option String)
      (body : Stmt)
  | returnStmt (e : Option Expr)
  | breakStmt
  | continueStmt
  | functionDefinition (name : String) (parameters : List String) (body : Stmt)
  | switchStmt (expression : Expr) (cases : List (Expr × List Stmt))
      (dflt : Option (List Stmt))
  | staticVar (name : String) (initial : Option Expr)
  | destructuringAssignment (targets : List DestructTarget) (value : Expr)

/-- A user-defined function (`engine.rs` struct `Function`). -/
structure PhpFunction where
  params : List String
  body : Stmt

/-- Lookup in a string-keyed `HashMap` model (only lookup and length of
these maps are ever observed by the engine). -/
def assocGet {α : Type} (k : String) : List (String × α) → Option α
  | [] => none
  | (k', v') :: rest => if k = k' then some v' else assocGet k rest

/-- Insert into a string-keyed `HashMap` model: replace the existing
entry in place, or add a new one. -/
def assocSet {α : Type} (k : String) (v : α) :
    List (String × α) → List (String × α)
  | [] => [(k, v)]
  | (k', v') :: rest =>
      if k = k' then (k, v) :: rest else (k', v') :: assocSet k v rest

/-- Membership test (`HashMap::contains_key`). -/
def assocContains {α : Type} (k : String) (l : List (String × α)) : Bool :=
  (assocGet k l).isSome

/-- The engine's `ExecutionContext` (`engine.rs`): variables, constants,
user functions and the accumulated output. -/
structure ExecutionContext where
  vars : List (String × PhpValue)
  constants : List (String × PhpValue)
  functions : List (String × PhpFunction)
  output : String

/-- The `Engine` struct (`engine.rs`): the context plus cross-call
state.  Stacks are modelled with the most recently pushed element at
the head (Rust's `Vec::push`/`last_mut`/`pop` act on the same end). -/
structure Engine where
  context : ExecutionContext
  staticStorage : List (String × List (String × PhpValue))
  staticVarStack : List (String × List String)
  currentFunction : Option String
  outputBuffers : List String

namespace Engine

/-- Constructor `Engine::new`: `_GET` plus the JSON/filter constants. -/
def new : Engine :=
  { context :=
      { vars := [("_GET", PhpValue.ofArray PhpArray.new)]
        constants :=
          [("JSON_UNESCAPED_SLASHES", .int 1),
           ("JSON_UNESCAPED_UNICODE", .int 2),
           ("JSON_THROW_ON_ERROR", .int 4),
           ("FILTER_VALIDATE_INT", .int 257)]
        functions := []
        output := "" }
    staticStorage := []
    staticVarStack := []
    currentFunction := none
    outputBuffers := [] }

/-- Method `ExecutionContext::get_variable` through the engine. -/
def getVariable (st : Engine) (name : String) : Option PhpValue :=
  assocGet name st.context.vars

/-- Method `ExecutionContext::set_variable` through the engine. -/
def setVariable (st : Engine) (name : String) (v : PhpValue) : Engine :=
  { st with context.vars := assocSet name v st.context.vars }

/-- Method `ExecutionContext::get_constant` through the engine. -/
def getConstant (st : Engine) (name : String) : Option PhpValue :=
  assocGet name st.context.constants

/-- Method `ExecutionContext::set_constant` through the engine. -/
def setConstant (st : Engine) (name : String) (v : PhpValue) : Engine :=
  { st with context.constants := assocSet name v st.context.constants }

/-- Lookup in the function table. -/
def getFunction (st : Engine) (name : String) : Option PhpFunction :=
  assocGet name st.context.functions

/-- Insert into the function table. -/
def setFunction (st : Engine) (name : String) (f : PhpFunction) : Engine :=
  { st with context.functions := assocSet name f st.context.functions }

/-- Wholesale replacement of the variable map (used on function
entry/exit, mirroring `self.context.variables = saved_vars`). -/
def restoreVariables (st : Engine) (vars : List (String × PhpValue)) : Engine :=
  { st with context.vars := vars }

/-- Method `Engine::write_output`: append to the top output buffer if
one is active, otherwise to the context's output string. -/
def writeOutput (st : Engine) (text : String) : Engine :=
  match st.outputBuffers with
  | b :: rest => { st with outputBuffers := (b ++ text) :: rest }
  | [] => { st with context.output := st.context.output ++ text }

end Engine

/-- Control-flow signal (`engine.rs` enum `ExecSignal`): `normal` is
the source's `None`, `brk`/`cont` are `Break`/`Continue`. -/
inductive ExecSignal where
  | normal
  | brk
  | cont
  | ret (v : Option PhpValue)

/-- The inline truthiness test of the `If` statement (`engine.rs` lines
163–180).  Note that it differs from `PhpValue::is_truthy`: a `Float`
NaN and an empty `Array` both fall to the catch-all `true` here. -/
def ifCondTruthy : PhpValue → Bool
  | .bool b => b
  | .null => false
  | .int i => i != 0
  | .float f => !(F64.beq f F64.zero)
  | .string s => !s.isEmpty && s != "0"
  | _ => true

/-- Character scan of `Engine::interpolate_string`.  The fuel is the
length of the input; every step consumes at least one character, so the
fuel never runs out when initialised that way. -/
def interpGo (vs : List (String × PhpValue)) : Nat → List Char → List Char
  | 0, _ => []
  | _ + 1, [] => []
  | f + 1, '$' :: rest =>
      match rest with
      | c :: cs =>
          if c.isAlpha || c = '_' then
            let nameChars := c :: cs.takeWhile (fun ch => ch.isAlphanum || ch = '_')
            let rest' := cs.dropWhile (fun ch => ch.isAlphanum || ch = '_')
            match assocGet (String.mk nameChars) vs with
            | some v => v.toStr.data ++ interpGo vs f rest'
            | none => '$' :: (nameChars ++ interpGo vs f rest')
          else '$' :: interpGo vs f rest
      | [] => ['$']
  | f + 1, c :: rest => c :: interpGo vs f rest

/-- Method `Engine::interpolate_string`: substitute `$name` runs with
the variable's string value; unresolvable names stay literal. -/
def Engine.interpolateString (st : Engine) (input : String) : String :=
  String.mk (interpGo st.context.vars input.length input.data)

/-- Key-to-value conversion used by `foreach` key binding. -/
def PhpArrayKey.toValue : PhpArrayKey → PhpValue
  | .int i => .int i
  | .str s => .string s

/-- Rust `Ordering` of two floats via `partial_cmp(..).unwrap_or(Equal)`
as `-1 | 0 | 1` (NaN compares as `Equal`, hence `0`). -/
def f64Cmp (a b : F64) : Int :=
  if F64.lt a b then -1
  else if F64.beq a b then 0
  else if F64.lt b a then 1
  else 0

/-- Rust `Ord::cmp` on strings as `-1 | 0 | 1`. -/
def strCmp (a b : String) : Int :=
  if strLt a b then -1 else if a = b then 0 else 1

/-- The `Spaceship` arm of binary evaluation (`engine.rs`): numeric
pairs compare numerically, everything else by string form. -/
def spaceshipCmp (l r : PhpValue) : Int :=
  match l, r with
  | .int a, .int b => if a < b then -1 else if a = b then 0 else 1
  | .float a, .float b => f64Cmp a b
  | .int a, .float b => f64Cmp (F64.ofInt a) b
  | .float a, .int b => f64Cmp a (F64.ofInt b)
  | _, _ => strCmp l.toStr r.toStr

/-- Two's-complement image of an `i64` value as a 64-bit natural. -/
def toBits64 (i : Int) : Nat := ((i % 2 ^ 64 + 2 ^ 64) % 2 ^ 64).toNat

/-- Rust `i64` bitwise and. -/
def i64Land (a b : Int) : Int := wrap64 (Nat.land (toBits64 a) (toBits64 b))

/-- Rust `i64` bitwise or. -/
def i64Lor (a b : Int) : Int := wrap64 (Nat.lor (toBits64 a) (toBits64 b))

/-- The pure dispatch on a binary operator once both operands are
evaluated (`engine.rs`, `Expr::Binary`).  `Modulo` falls to the
source's catch-all `"Binary operator not implemented"`. -/
def evalBinaryOp (op : BinaryOp) (lv rv : PhpValue) : Except String PhpValue :=
  match op with
  | .add => .ok (phpAdd lv rv)
  | .subtract => .ok (phpSubtract lv rv)
  | .multiply => .ok (phpMultiply lv rv)
  | .divide => phpDivide lv rv
  | .concatenate => .ok (phpConcatenate lv rv)
  | .equal => .ok (.bool (phpEquals lv rv))
  | .notEqual => .ok (.bool (!phpEquals lv rv))
  | .lessThan => .ok (.bool (phpLessThan lv rv))
  | .lessThanOrEqual => .ok (.bool (phpLessThanOrEqual lv rv))
  | .greaterThan => .ok (.bool (phpGreaterThan lv rv))
  | .greaterThanOrEqual => .ok (.bool (phpGreaterThanOrEqual lv rv))
  | .spaceship => .ok (.int (spaceshipCmp lv rv))
  | .bitwiseAnd => .ok (.int (i64Land lv.toInt rv.toInt))
  | .bitwiseOr => .ok (.int (i64Lor lv.toInt rv.toInt))
  | .logicalAnd => .ok (.bool (lv.isTruthy && rv.isTruthy))
  | .logicalOr => .ok (.bool (lv.isTruthy || rv.isTruthy))
  | .modulo => .error "Binary operator not implemented"

/-- The pure unary increment/decrement value steps (`engine.rs`):
`Int`/`Float` step by one (`i64` wrap-around on the integer case), any
other value is replaced outright. -/
def incValue : PhpValue → PhpValue
  | .int i => .int (wrap64 (i + 1))
  | .float f => .float (f.add F64.one)
  | _ => .int 1

/-- Decrement counterpart of `incValue`. -/
def decValue : PhpValue → PhpValue
  | .int i => .int (wrap64 (i - 1))
  | .float f => .float (f.sub F64.one)
  | _ => .int (-1)

/-- Destructuring-assignment binding loop (`engine.rs`,
`Stmt::DestructuringAssignment`): plain targets consume sequential
integer indices, keyed targets look up their string key. -/
def destructAssign (arr : PhpArray) :
    List DestructTarget → Int → Engine → Engine
  | [], _, st => st
  | .dvar v :: rest, autoIndex, st =>
      destructAssign arr rest (autoIndex + 1)
        (st.setVariable v ((arr.getInt autoIndex).getD .null))
  | .dkeyVar k v :: rest, autoIndex, st =>
      destructAssign arr rest autoIndex
        (st.setVariable v ((arr.getString k).getD .null))

/-- Static write-back loop at the end of a user-function call
(`engine.rs`, `call_function`): each recorded static name's current
local value is stored back. -/
def writeBackStatics (vs : List (String × PhpValue)) :
    List String → List (String × PhpValue) → List (String × PhpValue)
  | [], store => store
  | n :: rest, store =>
      writeBackStatics vs rest
        (match assocGet n vs with
         | some v => assocSet n v store
         | none => store)

/-- The `implode` result once glue and pieces are evaluated: array
values are stringified and joined in stored (model) order; a non-array
is stringified alone. -/
def implodePieces (glue : String) : PhpValue → Except String PhpValue
  | .array d _ => .ok (.string (String.intercalate glue (d.map (fun p => p.2.toStr))))
  | other => .ok (.string other.toStr)

/-- The `array_merge` inner loop over one argument's entries: integer
keys re-append, string keys overwrite. -/
def mergeInto : PhpArray → List (PhpArrayKey × PhpValue) → PhpArray
  | acc, [] => acc
  | acc, (.int _, v) :: rest => mergeInto (acc.push v) rest
  | acc, (.str s, v) :: rest => mergeInto (acc.insertString s v) rest

mutual

/-- Method `Engine::exec` (`engine.rs`): execute one statement,
producing a control-flow signal.  The fuel argument decreases on every
recursive step; `"out of fuel"` stands for the non-termination that the
source would exhibit. -/
def exec : Nat → Stmt → Engine → Except String ExecSignal × Engine
  | 0, _, st => (.error "out of fuel", st)
  | fuel + 1, stmt, st =>
    match stmt with
    | .expression e =>
        match evalExpr fuel e st with
        | (.ok _, st') => (.ok .normal, st')
        | (.error msg, st') => (.error msg, st')
    | .echo e =>
        match evalExpr fuel e st with
        | (.ok v, st') => (.ok .normal, st'.writeOutput v.toStr)
        | (.error msg, st') => (.error msg, st')
    | .print e =>
        match evalExpr fuel e st with
        | (.ok v, st') => (.ok .normal, st'.writeOutput v.toStr)
        | (.error msg, st') => (.error msg, st')
    | .assignment varName value =>
        match evalExpr fuel value st with
        | (.ok v, st') => (.ok .normal, st'.setVariable varName v)
        | (.error msg, st') => (.error msg, st')
    | .nullCoalesceAssign varName value =>
        let current := (st.getVariable varName).getD .null
        if current.isNull then
          match evalExpr fuel value st with
          | (.ok v, st') => (.ok .normal, st'.setVariable varName v)
          | (.error msg, st') => (.error msg, st')
        else (.ok .normal, st)
    | .constantDefinition name value =>
        match evalExpr fuel value st with
        | (.ok v, st') => (.ok .normal, st'.setConstant name v)
        | (.error msg, st') => (.error msg, st')
    | .block stmts => execList fuel stmts st
    | .ifStmt condition thenStmt elseStmt =>
        match evalExpr fuel condition st with
        | (.ok v, st') =>
            if ifCondTruthy v then exec fuel thenStmt st'
            else
              match elseStmt with
              | some e => exec fuel e st'
              | none => (.ok .normal, st')
        | (.error msg, st') => (.error msg, st')
    | .whileStmt condition body => execWhile fuel condition body st
    | .forStmt init condition increment body =>
        match init with
        | some i =>
            match exec fuel i st with
            | (.ok _, st') => execFor fuel condition increment body st'
            | (.error msg, st') => (.error msg, st')
        | none => execFor fuel condition increment body st
    | .foreach arrayE valueVar keyVar body =>
        match evalExpr fuel arrayE st with
        | (.ok (.array data _), st') =>
            execForeach fuel data valueVar keyVar body st'
        | (.ok _, st') =>
            (.error "Cannot iterate over non-array value in foreach", st')
        | (.error msg, st') => (.error msg, st')
    | .switchStmt expression cases dflt =>
        match evalExpr fuel expression st with
        | (.ok discr, st') =>
            match execSwitchCases fuel discr cases st' with
            | (.ok (some sig), st'') => (.ok sig, st'')
            | (.ok none, st'') =>
                match dflt with
                | some stmts => execSwitchBody fuel stmts st''
                | none => (.ok .normal, st'')
            | (.error msg, st'') => (.error msg, st'')
        | (.error msg, st') => (.error msg, st')
    | .breakStmt => (.ok .brk, st)
    | .continueStmt => (.ok .cont, st)
    | .returnStmt e? =>
        match e? with
        | some e =>
            match evalExpr fuel e st with
            | (.ok v, st') => (.ok (.ret (some v)), st')
            | (.error msg, st') => (.error msg, st')
        | none => (.ok (.ret none), st)
    | .functionDefinition name parameters body =>
        (.ok .normal, st.setFunction name ⟨parameters, body⟩)
    | .staticVar name initial =>
        match st.currentFunction with
        | none => (.ok .normal, st)
        | some fn =>
            match
              (match initial with
               | some e =>
                   match evalExpr fuel e st with
                   | (.ok v, st') => (Except.ok (some v), st')
                   | (.error msg, st') => (.error msg, st')
               | none => (Except.ok (none : Option PhpValue), st)) with
            | (.error msg, st') => (.error msg, st')
            | (.ok initEval, st') =>
                let entry := (assocGet fn st'.staticStorage).getD []
                let entry' :=
                  if assocContains name entry then entry
                  else assocSet name (initEval.getD .null) entry
                let st1 :=
                  { st' with staticStorage := assocSet fn entry' st'.staticStorage }
                let st2 :=
                  match assocGet name entry' with
                  | some v => st1.setVariable name v
                  | none => st1
                let st3 :=
                  match st2.staticVarStack with
                  | (fnName, l) :: restStack =>
                      if fnName == fn && !(l.contains name) then
                        { st2 with staticVarStack := (fnName, l ++ [name]) :: restStack }
                      else st2
                  | [] => st2
                (.ok .normal, st3)
    | .destructuringAssignment targets value =>
        match evalExpr fuel value st with
        | (.ok (.array d n), st') =>
            (.ok .normal, destructAssign ⟨d, n⟩ targets 0 st')
        | (.ok _, st') => (.ok .normal, st')
        | (.error msg, st') => (.error msg, st')

/-- Execution of a statement list as in `Stmt::Block`: run in order,
stop early on any non-`None` signal. -/
def execList : Nat → List Stmt → Engine → Except String ExecSignal × Engine
  | 0, _, st => (.error "out of fuel", st)
  | _ + 1, [], st => (.ok .normal, st)
  | fuel + 1, s :: rest, st =>
      match exec fuel s st with
      | (.ok .normal, st') => execList fuel rest st'
      | (.ok sig, st') => (.ok sig, st')
      | (.error msg, st') => (.error msg, st')

/-- The `Stmt::While` loop: `Break` terminates, `Continue` re-tests the
condition, `Return` propagates. -/
def execWhile : Nat → Expr → Stmt → Engine → Except String ExecSignal × Engine
  | 0, _, _, st => (.error "out of fuel", st)
  | fuel + 1, condition, body, st =>
      match evalExpr fuel condition st with
      | (.ok v, st') =>
          if v.isTruthy then
            match exec fuel body st' with
            | (.ok .normal, st'') => execWhile fuel condition body st''
            | (.ok .cont, st'') => execWhile fuel condition body st''
            | (.ok .brk, st'') => (.ok .normal, st'')
            | (.ok (.ret r), st'') => (.ok (.ret r), st'')
            | (.error msg, st'') => (.error msg, st'')
          else (.ok .normal, st')
      | (.error msg, st') => (.error msg, st')

/-- The `Stmt::For` loop after initialisation: test, body, increment;
`Break` skips the increment, `Continue` still runs it. -/
def execFor : Nat → Option Expr → Option Expr → Stmt → Engine →
    Except String ExecSignal × Engine
  | 0, _, _, _, st => (.error "out of fuel", st)
  | fuel + 1, condition, increment, body, st =>
      match
        (match condition with
         | some ce =>
             match evalExpr fuel ce st with
             | (.ok v, st') => (Except.ok v.isTruthy, st')
             | (.error msg, st') => (.error msg, st')
         | none => (Except.ok true, st)) with
      | (.error msg, st') => (.error msg, st')
      | (.ok shouldRun, st') =>
          if shouldRun then
            match exec fuel body st' with
            | (.ok .normal, st1) =>
                match
                  (match increment with
                   | some ie =>
                       match evalExpr fuel ie st1 with
                       | (.ok _, st2) => (Except.ok Unit.unit, st2)
                       | (.error msg, st2) => (.error msg, st2)
                   | none => (Except.ok Unit.unit, st1)) with
                | (.ok _, st2) => execFor fuel condition increment body st2
                | (.error msg, st2) => (.error msg, st2)
            | (.ok .cont, st1) =>
                match
                  (match increment with
                   | some ie =>
                       match evalExpr fuel ie st1 with
                       | (.ok _, st2) => (Except.ok Unit.unit, st2)
                       | (.error msg, st2) => (.error msg, st2)
                   | none => (Except.ok Unit.unit, st1)) with
                | (.ok _, st2) => execFor fuel condition increment body st2
                | (.error msg, st2) => (.error msg, st2)
            | (.ok .brk, st1) => (.ok .normal, st1)
            | (.ok (.ret r), st1) => (.ok (.ret r), st1)
            | (.error msg, st1) => (.error msg, st1)
          else (.ok .normal, st')

/-- The `Stmt::Foreach` loop over the array's stored entries (the
`HashMap` iteration order of `arr.data`, which in this model is the
canonical key order — see `hashMapInsert`). -/
def execForeach : Nat → List (PhpArrayKey × PhpValue) → String →
    Option String → Stmt → Engine → Except String ExecSignal × Engine
  | 0, _, _, _, _, st => (.error "out of fuel", st)
  | _ + 1, [], _, _, _, st => (.ok .normal, st)
  | fuel + 1, (k, v) :: rest, valueVar, keyVar, body, st =>
      let st1 :=
        match keyVar with
        | some kn => st.setVariable kn k.toValue
        | none => st
      let st2 := st1.setVariable valueVar v
      match exec fuel body st2 with
      | (.ok .normal, st') => execForeach fuel rest valueVar keyVar body st'
      | (.ok .cont, st') => execForeach fuel rest valueVar keyVar body st'
      | (.ok .brk, st') => (.ok .normal, st')
      | (.ok (.ret r), st') => (.ok (.ret r), st')
      | (.error msg, st') => (.error msg, st')

/-- The case-scanning loop of `Stmt::Switch`: evaluate each case value
in order; on the first equal one run that case's statements and stop
(the source's `if matched { break; }` leaves the loop after the matched
case completes).  `ok none` means no case matched. -/
def execSwitchCases : Nat → PhpValue → List (Expr × List Stmt) → Engine →
    Except String (Option ExecSignal) × Engine
  | 0, _, _, st => (.error "out of fuel", st)
  | _ + 1, _, [], st => (.ok none, st)
  | fuel + 1, discr, (caseValue, stmts) :: rest, st =>
      match evalExpr fuel caseValue st with
      | (.ok v, st') =>
          if phpEquals discr v then
            match execSwitchBody fuel stmts st' with
            | (.ok sig, st'') => (.ok (some sig), st'')
            | (.error msg, st'') => (.error msg, st'')
          else execSwitchCases fuel discr rest st'
      | (.error msg, st') => (.error msg, st')

/-- The statement loop inside a matched case or the default block: a
syntactic `Break` statement (or a `Break` signal from a nested
statement) ends the whole switch; `Continue`/`Return` propagate out. -/
def execSwitchBody : Nat → List Stmt → Engine →
    Except String ExecSignal × Engine
  | 0, _, st => (.error "out of fuel", st)
  | _ + 1, [], st => (.ok .normal, st)
  | fuel + 1, s :: rest, st =>
      match s with
      | .breakStmt => (.ok .normal, st)
      | _ =>
          match exec fuel s st with
          | (.ok .normal, st') => execSwitchBody fuel rest st'
          | (.ok .brk, st') => (.ok .normal, st')
          | (.ok .cont, st') => (.ok .cont, st')
          | (.ok (.ret r), st') => (.ok (.ret r), st')
          | (.error msg, st') => (.error msg, st')

/-- Method `Engine::evaluate_expr` (`engine.rs`). -/
def evalExpr : Nat → Expr → Engine → Except String PhpValue × Engine
  | 0, _, st => (.error "out of fuel", st)
  | fuel + 1, e, st =>
    match e with
    | .var name => (.ok ((st.getVariable name).getD .null), st)
    | .constant name =>
        match st.getConstant name with
        | some v => (.ok v, st)
        | none => (.error ("Undefined constant: " ++ name), st)
    | .number n => (.ok (.float n), st)
    | .stringLit s => (.ok (.string (st.interpolateString s)), st)
    | .boolLit b => (.ok (.bool b), st)
    | .nullLit => (.ok .null, st)
    | .binary l op r =>
        match evalExpr fuel l st with
        | (.ok lv, st1) =>
            match evalExpr fuel r st1 with
            | (.ok rv, st2) => (evalBinaryOp op lv rv, st2)
            | (.error msg, st2) => (.error msg, st2)
        | (.error msg, st1) => (.error msg, st1)
    | .yieldExpr v =>
        match evalExpr fuel v st with
        | (.ok _, st') => (.ok .null, st')
        | (.error msg, st') => (.error msg, st')
    | .methodCall _ _ args => evalDiscardArgs fuel args st
    | .unary op operand =>
        match op with
        | .postIncrement =>
            match operand with
            | .var name =>
                let current := (st.getVariable name).getD (.int 0)
                (.ok current, st.setVariable name (incValue current))
            | _ =>
                (.error "Increment operator can only be applied to variables", st)
        | .postDecrement =>
            match operand with
            | .var name =>
                let current := (st.getVariable name).getD (.int 0)
                (.ok current, st.setVariable name (decValue current))
            | _ =>
                (.error "Decrement operator can only be applied to variables", st)
        | .preIncrement =>
            match operand with
            | .var name =>
                let current := (st.getVariable name).getD (.int 0)
                (.ok (incValue current), st.setVariable name (incValue current))
            | _ =>
                (.error "Increment operator can only be applied to variables", st)
        | .preDecrement =>
            match operand with
            | .var name =>
                let current := (st.getVariable name).getD (.int 0)
                (.ok (decValue current), st.setVariable name (decValue current))
            | _ =>
                (.error "Decrement operator can only be applied to variables", st)
        | .minus => (.error "Unary operator not implemented", st)
        | .notOp => (.error "Unary operator not implemented", st)
    | .functionCall name args => callFunction fuel name args st
    | .arrayLit elements =>
        match evalArrayElems fuel elements PhpArray.new st with
        | (.ok arr, st') => (.ok (PhpValue.ofArray arr), st')
        | (.error msg, st') => (.error msg, st')
    | .arrayAccess arrayE indexE =>
        match evalExpr fuel arrayE st with
        | (.ok arrayVal, st1) =>
            match evalExpr fuel indexE st1 with
            | (.ok indexVal, st2) =>
                match arrayVal with
                | .array d n =>
                    let arr : PhpArray := ⟨d, n⟩
                    let result :=
                      match indexVal with
                      | .int i => arr.getInt i
                      | .string s => arr.getString s
                      | other =>
                          match arr.getInt other.toInt with
                          | some v => some v
                          | none => arr.getString other.toStr
                    (.ok (result.getD .null), st2)
                | _ => (.ok .null, st2)
            | (.error msg, st2) => (.error msg, st2)
        | (.error msg, st1) => (.error msg, st1)
    | .nullCoalesce l r =>
        match evalExpr fuel l st with
        | (.ok lv, st') =>
            if lv.isNull then evalExpr fuel r st' else (.ok lv, st')
        | (.error msg, st') => (.error msg, st')
    | .ternary condition thenExpr elseExpr =>
        match evalExpr fuel condition st with
        | (.ok condVal, st') =>
            if condVal.isTruthy then
              match thenExpr with
              | some t => evalExpr fuel t st'
              | none => (.ok condVal, st')
            else evalExpr fuel elseExpr st'
        | (.error msg, st') => (.error msg, st')
    | .matchExpr subject arms defaultArm =>
        match evalExpr fuel subject st with
        | (.ok subjVal, st') =>
            match evalMatchArms fuel subjVal arms st' with
            | (.ok (some v), st'') => (.ok v, st'')
            | (.ok none, st'') =>
                match defaultArm with
                | some d => evalExpr fuel d st''
                | none => (.ok .null, st'')
            | (.error msg, st'') => (.error msg, st'')
        | (.error msg, st') => (.error msg, st')
    | .arrowFunction params body =>
        let id := "__closure_" ++ toString st.context.functions.length
        (.ok (.string id),
         st.setFunction id ⟨params, .returnStmt (some body)⟩)
    | .dynamicCall target args =>
        match evalExpr fuel target st with
        | (.ok (.string id), st') =>
            match st'.getFunction id with
            | some func =>
                if func.params.length ≠ args.length then
                  (.error ("Closure expects " ++ toString func.params.length ++
                    " args, got " ++ toString args.length), st')
                else
                  let savedVars := st'.context.vars
                  match bindParams fuel (func.params.zip args) st' with
                  | (.ok _, st1) =>
                      match exec fuel func.body st1 with
                      | (.ok sig, st2) =>
                          let result :=
                            match sig with
                            | .ret v => v.getD .null
                            | _ => .null
                          (.ok result, st2.restoreVariables savedVars)
                      | (.error msg, st2) => (.error msg, st2)
                  | (.error msg, st1) => (.error msg, st1)
            | none => (.error "Undefined closure id", st')
        | (.ok _, st') => (.error "Attempted to call non-closure value", st')
        | (.error msg, st') => (.error msg, st')

/-- Method `Engine::call_function` (`engine.rs`).  The built-ins that
reach out of the interpreter (environment, `serde_json`, `regex`,
decimal float formatting) are outside the modelled fragment and are
mapped to an explicit error; no verified statement depends on them.
The final arm is the user-defined dispatch with scope save/restore and
static write-back. -/
def callFunction : Nat → String → List Expr → Engine →
    Except String PhpValue × Engine
  | 0, _, _, st => (.error "out of fuel", st)
  | fuel + 1, name, args, st =>
    match name with
    | "define" =>
        match args with
        | [a0, a1] =>
            match evalExpr fuel a0 st with
            | (.ok (.string cname), st1) =>
                match evalExpr fuel a1 st1 with
                | (.ok cval, st2) => (.ok (.bool true), st2.setConstant cname cval)
                | (.error msg, st2) => (.error msg, st2)
            | (.ok _, st1) =>
                (.error "define() first argument must be a string", st1)
            | (.error msg, st1) => (.error msg, st1)
        | _ => (.error "define() expects exactly 2 arguments", st)
    | "isset" =>
        if args.isEmpty then (.ok (.bool false), st)
        else issetLoop fuel args st
    | "set_error_handler" => (.ok .null, st)
    | "ob_start" =>
        (.ok (.bool true), { st with outputBuffers := "" :: st.outputBuffers })
    | "ob_get_clean" =>
        match st.outputBuffers with
        | b :: rest => (.ok (.string b), { st with outputBuffers := rest })
        | [] => (.ok (.bool false), st)
    | "iterator_to_array" =>
        match args with
        | a0 :: _ =>
            match evalExpr fuel a0 st with
            | (.ok (.array d n), st') => (.ok (.array d n), st')
            | (.ok _, st') => (.ok (PhpValue.ofArray PhpArray.new), st')
            | (.error msg, st') => (.error msg, st')
        | [] => (.error "iterator_to_array() expects at least 1 argument", st)
    | "implode" =>
        match args with
        | [] => (.error "implode() expects at least 1 argument", st)
        | [a0] =>
            match evalExpr fuel a0 st with
            | (.ok pieces, st') => (implodePieces "" pieces, st')
            | (.error msg, st') => (.error msg, st')
        | a0 :: a1 :: _ =>
            match evalExpr fuel a0 st with
            | (.ok glueVal, st1) =>
                match evalExpr fuel a1 st1 with
                | (.ok pieces, st2) => (implodePieces glueVal.toStr pieces, st2)
                | (.error msg, st2) => (.error msg, st2)
            | (.error msg, st1) => (.error msg, st1)
    | "str_repeat" =>
        match args with
        | [a0, a1] =>
            match evalExpr fuel a0 st with
            | (.ok inputVal, st1) =>
                match evalExpr fuel a1 st1 with
                | (.ok timesVal, st2) =>
                    let s := inputVal.toStr
                    let times : Int :=
                      match timesVal with
                      | .int i => i
                      | .float f => f.toI64
                      | .string ts => (parseI64 ts).getD 0
                      | _ => 0
                    if times ≤ 0 then (.ok (.string ""), st2)
                    else if times > 100000 then
                      (.error "str_repeat(): Second argument too large", st2)
                    else (.ok (.string (String.join (List.replicate times.toNat s))), st2)
                | (.error msg, st2) => (.error msg, st2)
            | (.error msg, st1) => (.error msg, st1)
        | _ => (.error "str_repeat() expects exactly 2 arguments", st)
    | "filter_var" =>
        match args with
        | a0 :: a1 :: _ =>
            match evalExpr fuel a0 st with
            | (.ok v, st1) =>
                match evalExpr fuel a1 st1 with
                | (.ok filterVal, st2) =>
                    let filterId : Int :=
                      match filterVal with
                      | .int i => i
                      | _ => 0
                    if filterId = 257 then
                      match parseI64 v.toStr with
                      | some i => (.ok (.int i), st2)
                      | none => (.ok (.bool false), st2)
                    else (.ok v, st2)
                | (.error msg, st2) => (.error msg, st2)
            | (.error msg, st1) => (.error msg, st1)
        | _ => (.error "filter_var() expects at least 2 arguments", st)
    | "array_merge" =>
        match args with
        | [] => (.ok (PhpValue.ofArray PhpArray.new), st)
        | _ => arrayMergeLoop fuel args PhpArray.new st
    | "parse_str" => (.error "builtin outside modelled fragment: parse_str", st)
    | "getenv" => (.error "builtin outside modelled fragment: getenv", st)
    | "array_sum" => (.error "builtin outside modelled fragment: array_sum", st)
    | "usort" => (.error "builtin outside modelled fragment: usort", st)
    | "json_encode" => (.error "builtin outside modelled fragment: json_encode", st)
    | "json_decode" => (.error "builtin outside modelled fragment: json_decode", st)
    | "preg_match" => (.error "builtin outside modelled fragment: preg_match", st)
    | "printf" => (.error "builtin outside modelled fragment: printf", st)
    | _ =>
        match st.getFunction name with
        | some func =>
            if args.length ≠ func.params.length then
              (.error ("Function " ++ name ++ " expects " ++
                toString func.params.length ++ " arguments, got " ++
                toString args.length), st)
            else
              let savedVars := st.context.vars
              let prevFunction := st.currentFunction
              let st0 :=
                { st with
                  currentFunction := some name
                  staticVarStack := (name, []) :: st.staticVarStack }
              match bindParams fuel (func.params.zip args) st0 with
              | (.ok _, st1) =>
                  match exec fuel func.body st1 with
                  | (.ok sig, st2) =>
                      let result :=
                        match sig with
                        | .ret v => v.getD .null
                        | _ => .null
                      let st3 :=
                        match st2.staticVarStack with
                        | (fnName, names) :: restStack =>
                            let popped := { st2 with staticVarStack := restStack }
                            match assocGet fnName popped.staticStorage with
                            | some store =>
                                { popped with
                                  staticStorage :=
                                    assocSet fnName
                                      (writeBackStatics popped.context.vars names store)
                                      popped.staticStorage }
                            | none => popped
                        | [] => st2
                      let st4 := { st3 with currentFunction := prevFunction }
                      (.ok result, st4.restoreVariables savedVars)
                  | (.error msg, st2) => (.error msg, st2)
              | (.error msg, st1) => (.error msg, st1)
        | none => (.error ("Unknown function: " ++ name), st)

/-- The positional parameter-binding loop of a call: evaluate each
argument and bind it, in order (errors abort mid-way, without any
scope restoration, as in the source). -/
def bindParams : Nat → List (String × Expr) → Engine →
    Except String Unit × Engine
  | 0, _, st => (.error "out of fuel", st)
  | _ + 1, [], st => (.ok Unit.unit, st)
  | fuel + 1, (p, e) :: rest, st =>
      match evalExpr fuel e st with
      | (.ok v, st') => bindParams fuel rest (st'.setVariable p v)
      | (.error msg, st') => (.error msg, st')

/-- The element loop of `Expr::Array`: each element's value is
evaluated first, then its optional key; integer keys use
`insert_int`, string keys `insert_string`, any other key is
stringified, and unkeyed elements auto-append. -/
def evalArrayElems : Nat → List (Option Expr × Expr) → PhpArray → Engine →
    Except String PhpArray × Engine
  | 0, _, _, st => (.error "out of fuel", st)
  | _ + 1, [], acc, st => (.ok acc, st)
  | fuel + 1, (key?, valueE) :: rest, acc, st =>
      match evalExpr fuel valueE st with
      | (.ok v, st') =>
          match key? with
          | some keyE =>
              match evalExpr fuel keyE st' with
              | (.ok (.int i), st'') =>
                  evalArrayElems fuel rest (acc.insertInt i v) st''
              | (.ok (.string s), st'') =>
                  evalArrayElems fuel rest (acc.insertString s v) st''
              | (.ok other, st'') =>
                  evalArrayElems fuel rest (acc.insertString other.toStr v) st''
              | (.error msg, st'') => (.error msg, st'')
          | none => evalArrayElems fuel rest (acc.push v) st'
      | (.error msg, st') => (.error msg, st')

/-- The arm loop of `Expr::Match`. -/
def evalMatchArms : Nat → PhpValue → List (List Expr × Expr) → Engine →
    Except String (Option PhpValue) × Engine
  | 0, _, _, st => (.error "out of fuel", st)
  | _ + 1, _, [], st => (.ok none, st)
  | fuel + 1, subj, (conds, result) :: rest, st =>
      match evalMatchConds fuel subj conds result st with
      | (.ok (some v), st') => (.ok (some v), st')
      | (.ok none, st') => evalMatchArms fuel subj rest st'
      | (.error msg, st') => (.error msg, st')

/-- The condition loop inside one match arm. -/
def evalMatchConds : Nat → PhpValue → List Expr → Expr → Engine →
    Except String (Option PhpValue) × Engine
  | 0, _, _, _, st => (.error "out of fuel", st)
  | _ + 1, _, [], _, st => (.ok none, st)
  | fuel + 1, subj, c :: rest, result, st =>
      match evalExpr fuel c st with
      | (.ok cv, st') =>
          if phpEquals subj cv then
            match evalExpr fuel result st' with
            | (.ok rv, st'') => (.ok (some rv), st'')
            | (.error msg, st'') => (.error msg, st'')
          else evalMatchConds fuel subj rest result st'
      | (.error msg, st') => (.error msg, st')

/-- The argument loop of the `MethodCall` placeholder: arguments are
evaluated for their side effects and the call yields null. -/
def evalDiscardArgs : Nat → List Expr → Engine →
    Except String PhpValue × Engine
  | 0, _, st => (.error "out of fuel", st)
  | _ + 1, [], st => (.ok .null, st)
  | fuel + 1, a :: rest, st =>
      match evalExpr fuel a st with
      | (.ok _, st') => evalDiscardArgs fuel rest st'
      | (.error msg, st') => (.error msg, st')

/-- The argument loop of `isset`: false as soon as one argument
evaluates to null. -/
def issetLoop : Nat → List Expr → Engine → Except String PhpValue × Engine
  | 0, _, st => (.error "out of fuel", st)
  | _ + 1, [], st => (.ok (.bool true), st)
  | fuel + 1, a :: rest, st =>
      match evalExpr fuel a st with
      | (.ok v, st') =>
          if v.isNull then (.ok (.bool false), st') else issetLoop fuel rest st'
      | (.error msg, st') => (.error msg, st')

/-- The argument loop of `array_merge`. -/
def arrayMergeLoop : Nat → List Expr → PhpArray → Engine →
    Except String PhpValue × Engine
  | 0, _, _, st => (.error "out of fuel", st)
  | _ + 1, [], acc, st => (.ok (PhpValue.ofArray acc), st)
  | fuel + 1, a :: rest, acc, st =>
      match evalExpr fuel a st with
      | (.ok (.array d _), st') => arrayMergeLoop fuel rest (mergeInto acc d) st'
      | (.ok _, st') => arrayMergeLoop fuel rest acc st'
      | (.error msg, st') => (.error msg, st')

end

/-- Method `Engine::execute_stmt`: run a statement, printing the value
of a stray top-level `Return` signal. -/
def executeStmt (fuel : Nat) (stmt : Stmt) (st : Engine) :
    Except String Unit × Engine :=
  match exec fuel stmt st with
  | (.ok (.ret (some v)), st') => (.ok Unit.unit, st'.writeOutput v.toStr)
  | (.ok _, st') => (.ok Unit.unit, st')
  | (.error msg, st') => (.error msg, st')

/-- Lexer position (`stream.rs` struct `Position`), 1-based. -/
structure LexPos where
  line : Nat
  column : Nat
deriving DecidableEq, Repr

/-- The initial position `Position::start`. -/
def LexPos.start : LexPos := ⟨1, 1⟩

/-- Position update of `CharStream::next`: newline advances the line
and resets the column, any other character advances the column. -/
def advanceChar (p : LexPos) (c : Char) : LexPos :=
  if c = '\n' then ⟨p.line + 1, 1⟩ else ⟨p.line, p.column + 1⟩

/-- Lexer errors (`php-lexer/src/error.rs`). -/
inductive LexError where
  | unexpectedChar (c : Char) (line column : Nat)
  | unterminatedString (line column : Nat)
  | invalidNumber (number : String) (line column : Nat)
  | unexpectedEof
deriving DecidableEq, Repr

/-- The token constructors produced by the embedded lexer fragments
(`token.rs` has many more — operators, keywords, punctuation — none of
which these fragments emit).  Numbers carry an `f64`; there is no
integer token. -/
inductive Token where
  | number (n : F64)
  | string (s : String)
  | varTok (name : String)
deriving DecidableEq, Repr

/-- Method `CharStream::read_number` (`stream.rs` lines 131–149):
collect the contiguous run of digits and `.`, then parse it as an
`f64`, failing with `InvalidNumber` (carrying the offending text and
the starting position) when the parse rejects it. -/
def readNumber (input : List Char) (pos : LexPos) :
    Except LexError (F64 × List Char × LexPos) :=
  let numChars := input.takeWhile (fun c => c.isDigit || c = '.')
  let rest := input.dropWhile (fun c => c.isDigit || c = '.')
  match parseF64 (String.mk numChars) with
  | some f => .ok (f, rest, numChars.foldl advanceChar pos)
  | none => .error (.invalidNumber (String.mk numChars) pos.line pos.column)

/-- Method `LiteralHandler::tokenize_number` (`literals.rs`): wrap the
parsed `f64` in the float-carrying `Number` token — the only numeric
token the lexer has. -/
def tokenizeNumber (input : List Char) (pos : LexPos) :
    Except LexError (Token × List Char × LexPos) :=
  match readNumber input pos with
  | .ok (f, rest, p) => .ok (.number f, rest, p)
  | .error e => .error e

theorem char_toNat_inj {a b : Char} (h : a.toNat = b.toNat) : a = b :=
  Char.ext (UInt32.ext h)

theorem string_data_inj {s t : String} (h : s.data = t.data) : s = t := by
  cases s; cases t; exact congrArg String.mk h

theorem charListLt_asymm : ∀ {x y : List Char},
    charListLt x y = true → charListLt y x = false := by
  intro x
  induction x with
  | nil =>
      intro y h
      cases y with
      | nil => simp [charListLt] at h
      | cons b bs => simp [charListLt]
  | cons a as ih =>
      intro y h
      cases y with
      | nil => simp [charListLt] at h
      | cons b bs =>
          simp only [charListLt] at h ⊢
          by_cases hab : a = b
          · subst hab
            rw [if_pos rfl] at h ⊢
            exact ih h
          · rw [if_neg hab] at h
            have hba : b ≠ a := fun hh => hab hh.symm
            rw [if_neg hba]
            simp only [decide_eq_true_eq] at h
            simp only [decide_eq_false_iff_not]
            omega

theorem charListLt_total : ∀ {x y : List Char}, x ≠ y →
    charListLt x y = true ∨ charListLt y x = true := by
  intro x
  induction x with
  | nil =>
      intro y h
      cases y with
      | nil => exact absurd rfl h
      | cons b bs => left; simp [charListLt]
  | cons a as ih =>
      intro y h
      cases y with
      | nil => right; simp [charListLt]
      | cons b bs =>
          by_cases hab : a = b
          · subst hab
            have hne : as ≠ bs := fun hh => h (by rw [hh])
            rcases ih hne with hl | hr
            · left; simp [charListLt, hl]
            · right; simp [charListLt, hr]
          · have hnat : a.toNat ≠ b.toNat := fun hh => hab (char_toNat_inj hh)
            by_cases hlt : a.toNat < b.toNat
            · left; simp [charListLt, hab, hlt]
            · right
              have hba : b ≠ a := fun hh => hab hh.symm
              have : b.toNat < a.toNat := by omega
              simp [charListLt, hba, this]

theorem charListLt_trans : ∀ {x y z : List Char},
    charListLt x y = true → charListLt y z = true → charListLt x z = true := by
  intro x
  induction x with
  | nil =>
      intro y z h1 h2
      cases y with
      | nil => simp [charListLt] at h1
      | cons b bs =>
          cases z with
          | nil => simp [charListLt] at h2
          | cons c cs => simp [charListLt]
  | cons a as ih =>
      intro y z h1 h2
      cases y with
      | nil => simp [charListLt] at h1
      | cons b bs =>
          cases z with
          | nil => simp [charListLt] at h2
          | cons c cs =>
              simp only [charListLt] at h1 h2 ⊢
              by_cases hab : a = b
              · subst hab
                rw [if_pos rfl] at h1
                by_cases hbc : a = c
                · subst hbc
                  rw [if_pos rfl] at h2 ⊢
                  exact ih h1 h2
                · rw [if_neg hbc] at h2 ⊢
                  exact h2
              · rw [if_neg hab] at h1
                simp only [decide_eq_true_eq] at h1
                by_cases hbc : b = c
                · subst hbc
                  rw [if_neg hab]
                  simp only [decide_eq_true_eq]
                  exact h1
                · rw [if_neg hbc] at h2
                  simp only [decide_eq_true_eq] at h2
                  have hac : a ≠ c := by
                    intro hh
                    rw [hh] at h1
                    omega
                  rw [if_neg hac]
                  simp only [decide_eq_true_eq]
                  omega

theorem key_lt_irrefl (k : PhpArrayKey) : PhpArrayKey.lt k k = false := by
  cases k with
  | int i => simp [PhpArrayKey.lt]
  | str s =>
      simp only [PhpArrayKey.lt, strLt]
      cases h : charListLt s.data s.data
      · rfl
      · exact absurd (charListLt_asymm h) (by simp [h])

theorem key_lt_asymm {a b : PhpArrayKey} (h : PhpArrayKey.lt a b = true) :
    PhpArrayKey.lt b a = false := by
  cases a with
  | int i =>
      cases b with
      | int j => simp [PhpArrayKey.lt] at h ⊢; omega
      | str s => simp [PhpArrayKey.lt]
  | str s =>
      cases b with
      | int j => simp [PhpArrayKey.lt] at h
      | str t =>
          simp only [PhpArrayKey.lt, strLt] at h ⊢
          exact charListLt_asymm h

theorem key_lt_total {a b : PhpArrayKey} (h : a ≠ b) :
    PhpArrayKey.lt a b = true ∨ PhpArrayKey.lt b a = true := by
  cases a with
  | int i =>
      cases b with
      | int j =>
          simp only [PhpArrayKey.lt, decide_eq_true_eq]
          have : i ≠ j := by intro hh; exact h (by rw [hh])
          omega
      | str s => simp [PhpArrayKey.lt]
  | str s =>
      cases b with
      | int j => simp [PhpArrayKey.lt]
      | str t =>
          simp only [PhpArrayKey.lt, strLt]
          have hst : s.data ≠ t.data := by
            intro hd
            exact h (by rw [string_data_inj hd])
          exact charListLt_total hst

theorem key_lt_trans {a b c : PhpArrayKey} (h1 : PhpArrayKey.lt a b = true)
    (h2 : PhpArrayKey.lt b c = true) : PhpArrayKey.lt a c = true := by
  cases a with
  | int i =>
      cases b with
      | int j =>
          cases c with
          | int k => simp only [PhpArrayKey.lt, decide_eq_true_eq] at h1 h2 ⊢; omega
          | str s => simp [PhpArrayKey.lt]
      | str s =>
          cases c with
          | int k => simp [PhpArrayKey.lt] at h2
          | str t => simp [PhpArrayKey.lt]
  | str s =>
      cases b with
      | int j => simp [PhpArrayKey.lt] at h1
      | str t =>
          cases c with
          | int k => simp [PhpArrayKey.lt] at h2
          | str u =>
              simp only [PhpArrayKey.lt, strLt] at h1 h2 ⊢
              exact charListLt_trans h1 h2

/-- The hash-map model is insensitive to insertion order on distinct
keys: it remembers the association only, as `std::collections::HashMap`
does.  Consequently no iteration of the stored entries can recover the
order in which keys were inserted. -/
theorem hashMapInsert_comm {α : Type} (v1 v2 : α) {k1 k2 : PhpArrayKey}
    (h : k1 ≠ k2) (l : List (PhpArrayKey × α)) :
    hashMapInsert k1 v1 (hashMapInsert k2 v2 l) =
      hashMapInsert k2 v2 (hashMapInsert k1 v1 l) := by
  induction l with
  | nil =>
      by_cases h12 : PhpArrayKey.lt k1 k2 = true
      · have h21 := key_lt_asymm h12
        simp [hashMapInsert, h, Ne.symm h, h12, h21]
      · have h21 : PhpArrayKey.lt k2 k1 = true := by
          rcases key_lt_total h with hh | hh
          · exact absurd hh h12
          · exact hh
        have h12' := key_lt_asymm h21
        simp [hashMapInsert, h, Ne.symm h, h12', h21]
  | cons hd tl ih =>
      obtain ⟨k, v⟩ := hd
      by_cases e1 : k1 = k
      · subst e1
        have e2 : k2 ≠ k1 := Ne.symm h
        by_cases h21 : PhpArrayKey.lt k2 k1 = true
        · have h12 := key_lt_asymm h21
          simp [hashMapInsert, h, Ne.symm h, h12, h21]
        · have h12 : PhpArrayKey.lt k1 k2 = true := by
            rcases key_lt_total h with hh | hh
            · exact hh
            · exact absurd hh h21
          simp [hashMapInsert, h, Ne.symm h, h12, h21]
      · by_cases e2 : k2 = k
        · subst e2
          by_cases h12 : PhpArrayKey.lt k1 k2 = true
          · have h21 := key_lt_asymm h12
            simp [hashMapInsert, h, Ne.symm h, h12, h21, e1]
          · have h21 : PhpArrayKey.lt k2 k1 = true := by
              rcases key_lt_total h with hh | hh
              · exact absurd hh h12
              · exact hh
            simp [hashMapInsert, h, Ne.symm h, h12, h21, e1]
        · by_cases c1 : PhpArrayKey.lt k1 k = true
          · by_cases c2 : PhpArrayKey.lt k2 k = true
            · by_cases h12 : PhpArrayKey.lt k1 k2 = true
              · have h21 := key_lt_asymm h12
                simp [hashMapInsert, h, Ne.symm h, e1, e2, c1, c2, h12, h21]
              · have h21 : PhpArrayKey.lt k2 k1 = true := by
                  rcases key_lt_total h with hh | hh
                  · exact absurd hh h12
                  · exact hh
                simp [hashMapInsert, h, Ne.symm h, e1, e2, c1, c2, h12, h21]
            · have h21 : PhpArrayKey.lt k2 k1 = false := by
                by_contra hc
                have := key_lt_trans (a := k2) (b := k1) (c := k)
                  (by revert hc; cases PhpArrayKey.lt k2 k1 <;> simp) c1
                exact c2 this
              simp [hashMapInsert, h, Ne.symm h, e1, e2, c1, c2, h21]
          · by_cases c2 : PhpArrayKey.lt k2 k = true
            · have h12 : PhpArrayKey.lt k1 k2 = false := by
                by_contra hc
                have := key_lt_trans (a := k1) (b := k2) (c := k)
                  (by revert hc; cases PhpArrayKey.lt k1 k2 <;> simp) c2
                exact c1 this
              simp [hashMapInsert, h, Ne.symm h, e1, e2, c1, c2, h12]
            · simp [hashMapInsert, h, Ne.symm h, e1, e2, c1, c2, ih]

/-- The switch statement of the failing input
`switch (1) { case 1: echo "a"; case 2: echo "b"; }`:
the first case matches and ends without a `break`, so PHP fallthrough
(and the claim) require the second case's `echo "b"` to run as well. -/
def c1Switch : Stmt :=
  .switchStmt (.number (F64.ofInt 1))
    [(.number (F64.ofInt 1), [.echo (.stringLit "a")]),
     (.number (F64.ofInt 2), [.echo (.stringLit "b")])]
    none

/-- Claim C1: the engine does NOT fall through.  Executing the failing
input produces output `"a"` — the matched case's statements run and the
switch ends at the case boundary (`engine.rs` breaks out of the case
loop once a match has completed) — whereas the claimed fallthrough
semantics would produce `"ab"`. -/
theorem c1_switch_no_fallthrough :
    (exec 20 c1Switch Engine.new).2.context.output = "a" ∧
    (exec 20 c1Switch Engine.new).1 = .ok .normal ∧
    ("a" : String) ≠ "ab" := by
  exact ⟨rfl, rfl, by decide⟩

/-- The array of the failing input for C2, built exactly as the claim's
scenario: insert keys `"b"`, `0`, `"a"`, `1` in that order. -/
def c2Array : PhpArray :=
  ((((PhpArray.new.insertString "b" (.int 1)).insertInt 0 (.int 2)).insertString
      "a" (.int 3)).insertInt 1 (.int 4))

/-- An engine state holding that array in `$arr`. -/
def c2Engine : Engine :=
  Engine.new.setVariable "arr" (PhpValue.ofArray c2Array)

/-- The foreach of the failing input: `foreach ($arr as $k => $v) echo $k;`. -/
def c2Foreach : Stmt :=
  .foreach (.var "arr") "v" (some "k") (.echo (.var "k"))

/-- Claim C2: iteration does NOT visit entries in insertion order.
`PhpArray.data` is a `std::collections::HashMap`, which stores no
insertion-order information (the model realises its arbitrary iteration
order canonically; `hashMapInsert_comm` shows the stored value is
insertion-order-independent, so no iteration of it can track insertion
order).  After inserting keys `"b"`, `0`, `"a"`, `1` in that order, the
stored key sequence is `0, 1, "a", "b"`, a `foreach` echoing the keys
prints `"01ab"` (insertion order would print `"b0a1"`), and `implode`
over the values prints `"2431"` (insertion order would give `"1234"`). -/
theorem c2_foreach_not_insertion_order :
    c2Array.data.map Prod.fst =
      [PhpArrayKey.int 0, .int 1, .str "a", .str "b"] ∧
    c2Array.data.map Prod.fst ≠
      [PhpArrayKey.str "b", .int 0, .str "a", .int 1] ∧
    (exec 20 c2Foreach c2Engine).2.context.output = "01ab" ∧
    ("01ab" : String) ≠ "b0a1" ∧
    (evalExpr 20 (.functionCall "implode" [.stringLit "", .var "arr"])
        c2Engine).1 = .ok (.string "2431") ∧
    ("2431" : String) ≠ "1234" := by
  exact ⟨rfl, by decide, rfl, by decide, rfl, by decide⟩

/-- The failing input for C3: `if ([]) { echo "t"; } else { echo "f"; }`. -/
def c3If : Stmt :=
  .ifStmt (.arrayLit []) (.echo (.stringLit "t")) (some (.echo (.stringLit "f")))

/-- Claim C3: `PhpValue::is_truthy` does treat an empty array (and a
NaN float) as false, but the `If` statement's inline condition test
(`ifCondTruthy`, `engine.rs` lines 163–180) sends both to its
catch-all `true`: executing `if ([]) echo "t"; else echo "f";` prints
`"t"` where the claimed rule demands `"f"`. -/
theorem c3_if_truthiness_divergence :
    PhpValue.isTruthy (.array [] 0) = false ∧
    ifCondTruthy (.array [] 0) = true ∧
    PhpValue.isTruthy (.float .nan) = false ∧
    ifCondTruthy (.float .nan) = true ∧
    (exec 10 c3If Engine.new).2.context.output = "t" ∧
    ("t" : String) ≠ "f" := by
  exact ⟨rfl, rfl, rfl, rfl, rfl, by decide⟩

/-- The function definition of C4:
`function f() { static $n = 0; $n++; return $n; }`
(the literal `0` is a float literal, see C9). -/
def c4Def : Stmt :=
  .functionDefinition "f" []
    (.block
      [.staticVar "n" (some (.number (F64.ofInt 0))),
       .expression (.unary .postIncrement (.var "n")),
       .returnStmt (some (.var "n"))])

/-- Engine state after defining `f` on a fresh engine. -/
def c4St0 : Engine := (exec 40 c4Def Engine.new).2

/-- The call expression `f()`. -/
def c4Call : Expr := .functionCall "f" []

/-- First call of `f` on the fresh engine. -/
def c4Run1 : Except String PhpValue × Engine := evalExpr 40 c4Call c4St0

/-- Second call, on the state the first call left. -/
def c4Run2 : Except String PhpValue × Engine := evalExpr 40 c4Call c4Run1.2

/-- Third call. -/
def c4Run3 : Except String PhpValue × Engine := evalExpr 40 c4Call c4Run2.2

/-- Claim C4: three successive calls of
`function f() { static $n = 0; $n++; return $n; }` on the same engine
return 1, 2 and 3 (as PHP floats, since numeric literals are floats):
the static slot is initialised only on the first call, copied into the
local `$n` on each entry, and written back into `static_storage` when
the frame ends — after the third call the stored slot holds 3. -/
theorem c4_static_counter :
    c4Run1.1 = .ok (.float (F64.ofInt 1)) ∧
    c4Run2.1 = .ok (.float (F64.ofInt 2)) ∧
    c4Run3.1 = .ok (.float (F64.ofInt 3)) ∧
    assocGet "f" c4Run3.2.staticStorage = some [("n", .float (F64.ofInt 3))] := by
  exact ⟨rfl, rfl, rfl, rfl⟩

/-- Claim C5: `php_divide` errors with `"Division by zero"` exactly
when the divisor coerces to float `0.0` under IEEE `==`, and otherwise
always yields a `Float` (never an `Int`, even for two integer
operands); consequently `<?php echo 1/0; ?>` fails the whole execution
with that error, leaving the engine state — including the accumulated
output — untouched. -/
theorem c5_division :
    (∀ l r : PhpValue,
        phpDivide l r = .error "Division by zero" ↔
          F64.beq r.toFloat F64.zero = true) ∧
    (∀ l r v : PhpValue, phpDivide l r = .ok v → ∃ f, v = .float f) ∧
    executeStmt 10
        (.echo (.binary (.number (F64.ofInt 1)) .divide (.number (F64.ofInt 0))))
        Engine.new = (.error "Division by zero", Engine.new) ∧
    Engine.new.context.output = "" := by
  refine ⟨?_, ?_, rfl, rfl⟩
  · intro l r
    simp only [phpDivide]
    split_ifs with hb
    · simp [hb]
    · simp [hb]
  · intro l r v h
    simp only [phpDivide] at h
    by_cases hb : F64.beq r.toFloat F64.zero = true
    · rw [if_pos hb] at h
      exact absurd h (by simp)
    · rw [if_neg hb] at h
      injection h with h'
      exact ⟨_, h'.symm⟩

/-- Witness for C5 at a concrete input: dividing the floats `1.0` and
`2.0` succeeds, so by the theorem the result is a float. -/
theorem c5_division_witness :
    ∃ f, PhpValue.float (F64.div (F64.ofInt 1) (F64.ofInt 2)) = .float f :=
  c5_division.2.1 (.float (F64.ofInt 1)) (.float (F64.ofInt 2))
    (.float (F64.div (F64.ofInt 1) (F64.ofInt 2))) rfl

/-- Claim C6: executing `$v ??= rhs` checks the current value of `$v`
(undefined reads as null); when it is non-null nothing at all happens —
the right-hand side is not evaluated and the entire engine state is
returned unchanged — and when it is null the right-hand side is
evaluated once and its value assigned to `$v`. -/
theorem c6_null_coalesce_assign (fuel : Nat) (varName : String) (rhs : Expr)
    (st : Engine) :
    exec (fuel + 1) (.nullCoalesceAssign varName rhs) st =
      if ((st.getVariable varName).getD .null).isNull then
        match evalExpr fuel rhs st with
        | (.ok v, st') => (.ok .normal, st'.setVariable varName v)
        | (.error msg, st') => (.error msg, st')
      else (.ok .normal, st) := by
  rfl

/-- Does a key lie strictly below the given `next_index` bound?  String
keys trivially do. -/
def keyBelow (ni : Int) : PhpArrayKey → Bool
  | .int k => decide (k < ni)
  | .str _ => true

/-- Executable form of the C7 invariant: every integer key of the array
is strictly below `next_index` (equivalently, `next_index` is at least
one more than the largest integer key present). -/
def arrInv (a : PhpArray) : Bool :=
  a.data.all fun p => keyBelow a.nextIndex p.1

/-- Counterexample to C7 as stated: inserting the integer key
`i64::MAX = 2^63 - 1` wraps `next_index` around to `-2^63`, so
`next_index ≥ 1 + largest integer key` fails. -/
theorem c7_counterexample :
    (PhpArray.new.insertInt (2 ^ 63 - 1) .null).nextIndex = -(2 ^ 63) ∧
    ¬ ((2 ^ 63 - 1 : Int) + 1 ≤
        (PhpArray.new.insertInt (2 ^ 63 - 1) .null).nextIndex) ∧
    arrInv (PhpArray.new.insertInt (2 ^ 63 - 1) .null) = false := by
  refine ⟨by decide, by decide, by decide⟩

/-- Members of a hash-map insertion either carry the inserted key or
were already present. -/
theorem mem_hashMapInsert {α : Type} {k : PhpArrayKey} {v : α}
    {l : List (PhpArrayKey × α)} {p : PhpArrayKey × α}
    (hp : p ∈ hashMapInsert k v l) : p.1 = k ∨ p ∈ l := by
  induction l with
  | nil =>
      simp only [hashMapInsert, List.mem_singleton] at hp
      subst hp
      exact Or.inl rfl
  | cons hd tl ih =>
      obtain ⟨k', v'⟩ := hd
      simp only [hashMapInsert] at hp
      split_ifs at hp with h1 h2
      · rcases List.mem_cons.mp hp with h | h
        · subst h; exact Or.inl rfl
        · exact Or.inr (List.mem_cons_of_mem _ h)
      · rcases List.mem_cons.mp hp with h | h
        · subst h; exact Or.inl rfl
        · exact Or.inr h
      · rcases List.mem_cons.mp hp with h | h
        · subst h; exact Or.inr (List.mem_cons_self _ _)
        · rcases ih h with h' | h'
          · exact Or.inl h'
          · exact Or.inr (List.mem_cons_of_mem _ h')

/-- The array built by the C7 scenario: insert keys `"b"`, `0`, `"a"`,
`1` in that order. -/
def c7Concrete : PhpArray :=
  ((((PhpArray.new.insertString "b" (.int 1)).insertInt 0 (.int 2)).insertString
      "a" (.int 3)).insertInt 1 (.int 4))

/-- Claim C7 as amended: the invariant `next_index ≥ 1 + every integer
key` is preserved by `insert_string` unconditionally, and by
`insert_int`/`push` whenever the inserted integer key is an `i64` value
below `i64::MAX` (so that the `key + 1` update cannot wrap); and in the
concrete scenario — keys `"b"`, `0`, `"a"`, `1` inserted in that
order — `next_index` is 2 and a subsequent push lands at index 2. -/
theorem c7_next_index_invariant :
    (∀ (a : PhpArray) (k : Int) (v : PhpValue),
        arrInv a = true → -(2 ^ 63) ≤ k → k < 2 ^ 63 - 1 →
        arrInv (a.insertInt k v) = true) ∧
    (∀ (a : PhpArray) (s : String) (v : PhpValue),
        arrInv a = true → arrInv (a.insertString s v) = true) ∧
    (∀ (a : PhpArray) (v : PhpValue),
        arrInv a = true → -(2 ^ 63) ≤ a.nextIndex →
        a.nextIndex < 2 ^ 63 - 1 → arrInv (a.push v) = true) ∧
    c7Concrete.nextIndex = 2 ∧
    (c7Concrete.push (.int 5)).getInt 2 = some (.int 5) ∧
    arrInv c7Concrete = true := by
  have hwrap : ∀ i : Int, -(2 ^ 63) ≤ i → i < 2 ^ 63 → wrap64 i = i := by
    intro i h1 h2
    have h0 : (0 : Int) ≤ i + 2 ^ 63 := by omega
    have hlt : i + 2 ^ 63 < 2 ^ 64 := by omega
    simp only [wrap64]
    rw [Int.emod_eq_of_lt h0 hlt]
    omega
  have hins : ∀ (a : PhpArray) (k : Int) (v : PhpValue),
      arrInv a = true → -(2 ^ 63) ≤ k → k < 2 ^ 63 - 1 →
      arrInv (a.insertInt k v) = true := by
    intro a k v hinv hk1 hk2
    simp only [arrInv, List.all_eq_true] at hinv ⊢
    intro p hp
    have hni : (a.insertInt k v).nextIndex =
        if k ≥ a.nextIndex then k + 1 else a.nextIndex := by
      simp only [PhpArray.insertInt]
      split_ifs with hge
      · exact hwrap (k + 1) (by omega) (by omega)
      · rfl
    rw [hni]
    rcases mem_hashMapInsert (by simpa [PhpArray.insertInt] using hp) with h | h
    · rw [h]
      split_ifs with hge <;> simp only [keyBelow, decide_eq_true_eq] <;> omega
    · have hbelow := hinv p h
      rcases p with ⟨pk, pv⟩
      rcases pk with i | s
      · simp only [keyBelow, decide_eq_true_eq] at hbelow ⊢
        split_ifs with hge <;> omega
      · simp [keyBelow]
  refine ⟨hins, ?_, ?_, by decide, rfl, by decide⟩
  · intro a s v hinv
    simp only [arrInv, List.all_eq_true] at hinv ⊢
    intro p hp
    have hni : (a.insertString s v).nextIndex = a.nextIndex := rfl
    rw [hni]
    rcases mem_hashMapInsert (by simpa [PhpArray.insertString] using hp) with h | h
    · rw [h]
      simp [keyBelow]
    · exact hinv p h
  · intro a v hinv h1 h2
    exact hins a a.nextIndex v hinv h1 h2

/-- Witness for C7 at a concrete input: inserting key `0` into a fresh
array preserves the invariant. -/
theorem c7_next_index_invariant_witness :
    arrInv (PhpArray.new.insertInt 0 .null) = true :=
  c7_next_index_invariant.1 PhpArray.new 0 .null (by decide) (by decide)
    (by decide)

/-- Claim C9: every numeric literal evaluates to a float.  The engine
maps `Expr::Number` directly to `PhpValue::Float`; adding two number
literals takes the `Float`/`Float` branch of `php_add` (so the
integer-preserving `Int`/`Int` branches are never reached from literal
operands), and the lexer's number tokenizer can only ever produce the
`f64`-carrying `Number` token. -/
theorem c9_number_literals_float :
    (∀ (n : F64) (fuel : Nat) (st : Engine),
        evalExpr (fuel + 1) (.number n) st = (.ok (.float n), st)) ∧
    (∀ (a b : F64) (fuel : Nat) (st : Engine),
        evalExpr (fuel + 2) (.binary (.number a) .add (.number b)) st =
          (.ok (.float (a.add b)), st)) ∧
    (∀ a b : F64,
        phpAdd (.float a) (.float b) = .float (a.add b) ∧
        phpSubtract (.float a) (.float b) = .float (a.sub b) ∧
        phpMultiply (.float a) (.float b) = .float (a.mul b)) ∧
    (∀ (input : List Char) (pos : LexPos) (t : Token) (rest : List Char)
        (p : LexPos),
        tokenizeNumber input pos = .ok (t, rest, p) → ∃ f, t = .number f) := by
  refine ⟨fun n fuel st => rfl, fun a b fuel st => rfl,
    fun a b => ⟨rfl, rfl, rfl⟩, ?_⟩
  intro input pos t rest p h
  cases hr : readNumber input pos with
  | ok trip =>
      obtain ⟨f, r2, p2⟩ := trip
      simp only [tokenizeNumber, hr, Except.ok.injEq, Prod.mk.injEq] at h
      exact ⟨f, h.1.symm⟩
  | error e =>
      simp only [tokenizeNumber, hr] at h
      exact Except.noConfusion h

/-- Witness for C9 at a concrete input: lexing `42` yields the
float-carrying `Number` token. -/
theorem c9_number_literals_float_witness :
    ∃ f, Token.number (.finite (Frac.ofInt 42)) = .number f :=
  c9_number_literals_float.2.2.2 "42".data LexPos.start
    (.number (.finite (Frac.ofInt 42))) [] ⟨1, 3⟩ rfl

/-- Is an operator one of the four increment/decrement forms? -/
def isIncDec : UnaryOp → Bool
  | .preIncrement | .postIncrement | .preDecrement | .postDecrement => true
  | _ => false

/-- The error message each increment/decrement form raises on a
non-variable operand (`engine.rs`). -/
def incDecErrMsg : UnaryOp → String
  | .preIncrement | .postIncrement =>
      "Increment operator can only be applied to variables"
  | .preDecrement | .postDecrement =>
      "Decrement operator can only be applied to variables"
  | _ => ""

/-- Claim C10: an increment/decrement expression errors exactly when
its operand is not a plain variable; a variable operand never errors;
an undefined variable is read as `Int 0` (so post-increment returns
`Int 0` and stores `Int 1`); and a stored value that is neither `Int`
nor `Float` is replaced outright — increment stores `Int 1`, decrement
stores `Int (-1)` — with post-increment/post-decrement returning the
old value. -/
theorem c10_increment_decrement :
    (∀ (fuel : Nat) (op : UnaryOp) (operand : Expr) (st : Engine),
        isIncDec op = true → (∀ name, operand ≠ .var name) →
        evalExpr (fuel + 1) (.unary op operand) st =
          (.error (incDecErrMsg op), st)) ∧
    (∀ (fuel : Nat) (op : UnaryOp) (name : String) (st : Engine),
        isIncDec op = true →
        ∃ v st', evalExpr (fuel + 1) (.unary op (.var name)) st = (.ok v, st')) ∧
    (∀ (fuel : Nat) (name : String) (st : Engine),
        st.getVariable name = none →
        evalExpr (fuel + 1) (.unary .postIncrement (.var name)) st =
          (.ok (.int 0), st.setVariable name (.int 1))) ∧
    (∀ v : PhpValue, (∀ i, v ≠ .int i) → (∀ f, v ≠ .float f) →
        incValue v = .int 1 ∧ decValue v = .int (-1)) ∧
    (∀ (fuel : Nat) (name : String) (st : Engine) (v : PhpValue),
        st.getVariable name = some v → (∀ i, v ≠ .int i) →
        (∀ f, v ≠ .float f) →
        evalExpr (fuel + 1) (.unary .postIncrement (.var name)) st =
          (.ok v, st.setVariable name (.int 1)) ∧
        evalExpr (fuel + 1) (.unary .postDecrement (.var name)) st =
          (.ok v, st.setVariable name (.int (-1)))) := by
  have hwrap1 : wrap64 (0 + 1) = 1 := by decide
  have hinc : ∀ v : PhpValue, (∀ i, v ≠ .int i) → (∀ f, v ≠ .float f) →
      incValue v = .int 1 := by
    intro v h1 h2
    cases v <;>
      first
        | rfl
        | exact absurd rfl (h1 _)
        | exact absurd rfl (h2 _)
  have hdec : ∀ v : PhpValue, (∀ i, v ≠ .int i) → (∀ f, v ≠ .float f) →
      decValue v = .int (-1) := by
    intro v h1 h2
    cases v <;>
      first
        | rfl
        | exact absurd rfl (h1 _)
        | exact absurd rfl (h2 _)
  refine ⟨?_, ?_, ?_, fun v h1 h2 => ⟨hinc v h1 h2, hdec v h1 h2⟩, ?_⟩
  · intro fuel op operand st hop hnv
    cases op <;>
      first
        | exact absurd hop (by decide)
        | (cases operand <;>
            first
              | exact absurd rfl (hnv _)
              | rfl)
  · intro fuel op name st hop
    cases op <;>
      first
        | exact absurd hop (by decide)
        | exact ⟨_, _, rfl⟩
  · intro fuel name st h
    simp only [evalExpr, Engine.getVariable] at h ⊢
    rw [h]
    simp only [Option.getD, incValue, hwrap1]
  · intro fuel name st v h h1 h2
    constructor
    · simp only [evalExpr, Engine.getVariable] at h ⊢
      rw [h]
      simp only [Option.getD, hinc v h1 h2]
    · simp only [evalExpr, Engine.getVariable] at h ⊢
      rw [h]
      simp only [Option.getD, hdec v h1 h2]

/-- Witness for C10 at a concrete input: post-incrementing the
undefined `$x` on a fresh engine returns `Int 0` and stores `Int 1`. -/
theorem c10_increment_decrement_witness :
    evalExpr 1 (.unary .postIncrement (.var "x")) Engine.new =
      (.ok (.int 0), Engine.new.setVariable "x" (.int 1)) :=
  c10_increment_decrement.2.2.1 0 "x" Engine.new rfl
